/-
Verification of the Noesis knowledge-management backend.

This file gives a shallow embedding of the two cores of the repository:

* `src/api/graph.py` — the stateless ("permissive") Graph Materializer
  `_build_graph_from_notes`, which turns an arbitrary JSON note collection
  into a `{nodes, edges}` graph;
* `src/api/main.py` (with `src/api/models.py` and `src/api/schemas.py`) —
  the Store-backed CRUD endpoints for notes, versions and links, and the
  strict Store-backed graph endpoint `get_graph_data`.

JSON values reaching the permissive materializer are modelled by the
inductive `JVal`; the SQLAlchemy-backed store is modelled by `Store`,
a record of note, version and link lists plus a logical clock standing
for `datetime.utcnow()` / `func.now()` (each mutating operation reads the
clock and advances it, so timestamps of successive mutations are strictly
increasing).  `uuid.uuid4()` is modelled by deriving fresh identifiers
from the clock; claims under verification never inspect identifier text.
-/
import Mathlib

namespace Noesis

/-! ## JSON values (inputs of the permissive Graph Materializer) -/

/-- A JSON value as produced by Python's `json.loads`: object keys are
unique (later duplicates overwrite earlier ones during decoding). -/
inductive JVal where
  | str (s : String)
  | num (n : Int)
  | bool (b : Bool)
  | null
  | arr (elems : List JVal)
  | obj (fields : List (String × JVal))
deriving Repr, BEq

/-- The only Python runtime error relevant here: calling `.get` on a
non-`dict` value raises `AttributeError`. -/
inductive PyErr where
  | attributeError
deriving Repr, DecidableEq

/-- Is the value a JSON object (a Python `dict`)?  Only dicts have `.get`. -/
def JVal.isObj : JVal → Bool
  | .obj _ => true
  | _ => false

/-- `note.get(key)` in Python: returns `None` (here `none`) when the key is
absent, and raises `AttributeError` when `note` is not a dict. -/
def dictGet (note : JVal) (key : String) : Except PyErr (Option JVal) :=
  match note with
  | .obj fields => .ok (fields.lookup key)
  | _ => .error .attributeError

/-- `note.get(key, dflt)` on a value already known to be a dict (the code
only evaluates this after a bare `.get` on the same value succeeded). -/
def jGetD (note : JVal) (key : String) (dflt : JVal) : JVal :=
  match note with
  | .obj fields => (fields.lookup key).getD dflt
  | _ => dflt

/-- The node-identifier test of `_build_graph_from_notes`:
`if not node_id or not isinstance(node_id, str): continue` keeps an entry
exactly when its `id` is a non-empty string. -/
def nodeIdOf : Option JVal → Option String
  | some (.str s) => if s = "" then none else some s
  | _ => none

/-! ## Graph view -/

structure GNode where
  id : String
  title : JVal
  domain : JVal
deriving Repr, BEq

structure GEdge where
  source : String
  target : String
deriving Repr, DecidableEq

structure Graph where
  nodes : List GNode
  edges : List GEdge
deriving Repr, BEq

/-! ## `_build_graph_from_notes` (src/api/graph.py, lines 38-83) -/

/-- First loop of `_build_graph_from_notes`: build the node list, skipping
entries without a non-empty string `id` and duplicate identifiers
(`seen_ids`), defaulting `title` to the identifier and `domain` to
`"default"`.  Calling `.get` on a non-dict entry raises. -/
def buildNodesLoop : List JVal → List String → Except PyErr (List GNode)
  | [], _ => .ok []
  | note :: rest, seen =>
    match dictGet note "id" with
    | .error e => .error e
    | .ok idv =>
      match nodeIdOf idv with
      | none => buildNodesLoop rest seen
      | some nid =>
        if nid ∈ seen then buildNodesLoop rest seen
        else
          match buildNodesLoop rest (nid :: seen) with
          | .error e => .error e
          | .ok ns =>
            .ok ({ id := nid,
                   title := jGetD note "title" (.str nid),
                   domain := jGetD note "domain" (.str "default") } :: ns)

/-- An element of a `links` array contributes an edge iff it is a string
(`if not isinstance(target_id, str): continue`). -/
def strEdge (sid : String) : JVal → Option GEdge
  | .str t => some { source := sid, target := t }
  | _ => none

/-- Second loop of `_build_graph_from_notes`: emit one edge per string
element of each kept entry's `links` array (default `[]`; a non-list
`links` value skips the entry), with no existence check on the target. -/
def buildEdgesLoop : List JVal → Except PyErr (List GEdge)
  | [] => .ok []
  | note :: rest =>
    match dictGet note "id" with
    | .error e => .error e
    | .ok idv =>
      match nodeIdOf idv with
      | none => buildEdgesLoop rest
      | some sid =>
        match jGetD note "links" (.arr []) with
        | .arr targets =>
          match buildEdgesLoop rest with
          | .error e => .error e
          | .ok es => .ok (targets.filterMap (strEdge sid) ++ es)
        | _ => buildEdgesLoop rest

/-- `_build_graph_from_notes` (src/api/graph.py): both loops, then
`{nodes, edges}`.  A non-dict entry makes either loop raise. -/
def buildGraphFromNotes (notes : List JVal) : Except PyErr Graph :=
  match buildNodesLoop notes [] with
  | .error e => .error e
  | .ok ns =>
    match buildEdgesLoop notes with
    | .error e => .error e
    | .ok es => .ok { nodes := ns, edges := es }

/-! ## Spec-side model of the permissive materializer

Used only to compare the code against the spec's algorithm description
(section 4.2, steps 1-2): these definitions follow the spec's words, not
the code. -/

/-- The raw `id` value of an entry: the value under its `id` key when the
entry is an object, `none` otherwise (a non-object entry "lacks an
identifier" in the spec's words). -/
def entryKey : JVal → Option JVal
  | .obj fs => fs.lookup "id"
  | _ => none

/-- Spec step 1, by its words: "Traverse the note collection once, building
the node list: skip any entry lacking a non-empty string identifier; skip
duplicate identifiers (keep first); default `title` to the identifier if
absent; default `domain` to a fixed fallback value if absent." -/
def specNodes : List JVal → List String → List GNode
  | [], _ => []
  | e :: rest, seen =>
    match nodeIdOf (entryKey e) with
    | none => specNodes rest seen
    | some nid =>
      if nid ∈ seen then specNodes rest seen
      else
        { id := nid,
          title := jGetD e "title" (.str nid),
          domain := jGetD e "domain" (.str "default") } :: specNodes rest (nid :: seen)

/-- Spec step 2 (permissive mode), by its words: "emit `{source, target}`
pairs directly from each note's declared outgoing-link identifiers, with no
existence check on `target`", skipping malformed (non-string) identifiers. -/
def specEdges : List JVal → List GEdge
  | [] => []
  | e :: rest =>
    match nodeIdOf (entryKey e) with
    | none => specEdges rest
    | some sid =>
      (match jGetD e "links" (.arr []) with
       | .arr targets => targets.filterMap (strEdge sid)
       | _ => []) ++ specEdges rest

/-! ### Materializer lemmas -/

lemma dictGet_isObj {note : JVal} (h : note.isObj = true) (key : String) :
    ∃ v, dictGet note key = .ok v := by
  cases note <;> simp_all [JVal.isObj, dictGet]

/-- On a collection of genuine objects the node loop never raises and
agrees with the spec's step-1 description. -/
lemma buildNodesLoop_eq_specNodes :
    ∀ (notes : List JVal) (seen : List String),
      (∀ e ∈ notes, e.isObj = true) →
      buildNodesLoop notes seen = .ok (specNodes notes seen) := by
  intro notes
  induction notes with
  | nil => intro seen _; rfl
  | cons e rest ih =>
    intro seen hobj
    have he : e.isObj = true := hobj e (by simp)
    have hrest : ∀ x ∈ rest, x.isObj = true := fun x hx => hobj x (by simp [hx])
    cases e with
    | obj fs =>
      simp only [buildNodesLoop, specNodes, dictGet, entryKey]
      cases hl : nodeIdOf (fs.lookup "id") with
      | none => exact ih seen hrest
      | some nid =>
        by_cases hseen : nid ∈ seen
        · simp [hseen, ih seen hrest]
        · simp [hseen, ih (nid :: seen) hrest]
    | str s => simp [JVal.isObj] at he
    | num n => simp [JVal.isObj] at he
    | bool b => simp [JVal.isObj] at he
    | null => simp [JVal.isObj] at he
    | arr xs => simp [JVal.isObj] at he

/-- On a collection of genuine objects the edge loop never raises and
agrees with the spec's step-2 description. -/
lemma buildEdgesLoop_eq_specEdges :
    ∀ notes : List JVal,
      (∀ e ∈ notes, e.isObj = true) →
      buildEdgesLoop notes = .ok (specEdges notes) := by
  intro notes
  induction notes with
  | nil => intro _; rfl
  | cons e rest ih =>
    intro hobj
    have he : e.isObj = true := hobj e (by simp)
    have hrest : ∀ x ∈ rest, x.isObj = true := fun x hx => hobj x (by simp [hx])
    cases e with
    | obj fs =>
      simp only [buildEdgesLoop, specEdges, dictGet, entryKey]
      cases hl : nodeIdOf (fs.lookup "id") with
      | none => exact ih hrest
      | some sid =>
        cases hlinks : jGetD (JVal.obj fs) "links" (.arr []) with
        | arr targets => simp [ih hrest]
        | str s => simp [ih hrest]
        | num n => simp [ih hrest]
        | bool b => simp [ih hrest]
        | null => simp [ih hrest]
        | obj gs => simp [ih hrest]
    | str s => simp [JVal.isObj] at he
    | num n => simp [JVal.isObj] at he
    | bool b => simp [JVal.isObj] at he
    | null => simp [JVal.isObj] at he
    | arr xs => simp [JVal.isObj] at he

/-- On a collection of genuine objects the materializer as a whole refines
the spec's two-pass description. -/
lemma buildGraph_eq_spec (notes : List JVal)
    (hobj : ∀ e ∈ notes, e.isObj = true) :
    buildGraphFromNotes notes =
      .ok { nodes := specNodes notes [], edges := specEdges notes } := by
  simp [buildGraphFromNotes, buildNodesLoop_eq_specNodes notes [] hobj,
    buildEdgesLoop_eq_specEdges notes hobj]

/-- The `links` array an entry declares: the value of its `links` key when
that value is a list, `[]` otherwise (both when the key is absent — the
code's `.get("links", [])` default — and when its value is not a list,
which the code skips). -/
def declaredLinks (fs : List (String × JVal)) : List JVal :=
  match jGetD (.obj fs) "links" (.arr []) with
  | .arr targets => targets
  | _ => []

/-- The node identifiers of a node-loop result are duplicate-free and
disjoint from the already-seen set. -/
lemma buildNodesLoop_ids_nodup :
    ∀ (notes : List JVal) (seen : List String) (ns : List GNode),
      buildNodesLoop notes seen = .ok ns →
      (ns.map GNode.id).Nodup ∧ ∀ n ∈ ns, n.id ∉ seen := by
  intro notes
  induction notes with
  | nil =>
    intro seen ns h
    obtain rfl : ([] : List GNode) = ns := Except.ok.inj h
    simp
  | cons e rest ih =>
    intro seen ns h
    simp only [buildNodesLoop] at h
    cases hdg : dictGet e "id" with
    | error err => rw [hdg] at h; cases h
    | ok idv =>
      rw [hdg] at h
      dsimp only at h
      cases hni : nodeIdOf idv with
      | none => rw [hni] at h; exact ih seen ns h
      | some nid =>
        rw [hni] at h
        dsimp only at h
        by_cases hseen : nid ∈ seen
        · rw [if_pos hseen] at h
          exact ih seen ns h
        · rw [if_neg hseen] at h
          cases hrec : buildNodesLoop rest (nid :: seen) with
          | error err => rw [hrec] at h; cases h
          | ok ns1 =>
            rw [hrec] at h
            dsimp only at h
            obtain ⟨h1, h2⟩ := ih (nid :: seen) ns1 hrec
            obtain rfl := Except.ok.inj h
            refine ⟨?_, ?_⟩
            · refine List.nodup_cons.2 ⟨?_, h1⟩
              intro hmem
              obtain ⟨n, hn, hnid⟩ := List.mem_map.1 hmem
              exact h2 n hn (hnid ▸ List.mem_cons_self nid seen)
            · intro n hn
              rcases List.mem_cons.1 hn with rfl | hn1
              · exact hseen
              · exact fun hc => h2 n hn1 (List.mem_cons_of_mem _ hc)

/-- A successful node loop means every entry was a genuine object (the
loop calls `.get` on each entry unconditionally). -/
lemma allObj_of_buildNodesLoop_ok :
    ∀ (notes : List JVal) (seen : List String) (ns : List GNode),
      buildNodesLoop notes seen = .ok ns →
      ∀ e ∈ notes, e.isObj = true := by
  intro notes
  induction notes with
  | nil => intro seen ns _ e he; cases he
  | cons e rest ih =>
    intro seen ns h x hx
    simp only [buildNodesLoop] at h
    cases hdg : dictGet e "id" with
    | error err => rw [hdg] at h; cases h
    | ok idv =>
      have hobj : e.isObj = true := by
        cases e <;> first | rfl | (simp [dictGet] at hdg)
      rw [hdg] at h
      dsimp only at h
      rcases List.mem_cons.1 hx with rfl | hx1
      · exact hobj
      · cases hni : nodeIdOf idv with
        | none => rw [hni] at h; exact ih seen ns h x hx1
        | some nid =>
          rw [hni] at h
          dsimp only at h
          by_cases hseen : nid ∈ seen
          · rw [if_pos hseen] at h; exact ih seen ns h x hx1
          · rw [if_neg hseen] at h
            cases hrec : buildNodesLoop rest (nid :: seen) with
            | error err => rw [hrec] at h; cases h
            | ok ns1 => exact ih (nid :: seen) ns1 hrec x hx1

/-- Every edge the edge loop emits has a source that is either an
already-seen identifier or the identifier of a node the node loop (run
with the same seen-set) produced. -/
lemma buildEdges_source_mem :
    ∀ (notes : List JVal) (seen : List String) (ns : List GNode)
      (es : List GEdge),
      buildNodesLoop notes seen = .ok ns →
      buildEdgesLoop notes = .ok es →
      ∀ e ∈ es, e.source ∈ seen ∨ ∃ n ∈ ns, n.id = e.source := by
  intro notes
  induction notes with
  | nil =>
    intro seen ns es _ he e hmem
    obtain rfl : ([] : List GEdge) = es := Except.ok.inj he
    cases hmem
  | cons note rest ih =>
    intro seen ns es hn he e hmem
    simp only [buildNodesLoop] at hn
    simp only [buildEdgesLoop] at he
    cases hdg : dictGet note "id" with
    | error err => rw [hdg] at hn; cases hn
    | ok idv =>
      rw [hdg] at hn he
      dsimp only at hn he
      cases hni : nodeIdOf idv with
      | none =>
        rw [hni] at hn he
        exact ih seen ns es hn he e hmem
      | some nid =>
        rw [hni] at hn he
        dsimp only at hn he
        -- the edge either comes from this entry (source `nid`) or from the rest
        have hsrc : e.source = nid ∨ ∃ es1, buildEdgesLoop rest = .ok es1 ∧ e ∈ es1 := by
          cases hl : jGetD note "links" (.arr []) with
          | arr targets =>
            rw [hl] at he
            dsimp only at he
            cases hrec : buildEdgesLoop rest with
            | error err => rw [hrec] at he; cases he
            | ok es1 =>
              rw [hrec] at he
              dsimp only at he
              obtain rfl := Except.ok.inj he
              rcases List.mem_append.1 hmem with hmem1 | hmem1
              · left
                obtain ⟨t, _, ht⟩ := List.mem_filterMap.1 hmem1
                cases t <;> simp [strEdge] at ht
                rw [← ht]
              · exact Or.inr ⟨es1, rfl, hmem1⟩
          | str v => rw [hl] at he; exact Or.inr ⟨es, he, hmem⟩
          | num v => rw [hl] at he; exact Or.inr ⟨es, he, hmem⟩
          | bool v => rw [hl] at he; exact Or.inr ⟨es, he, hmem⟩
          | null => rw [hl] at he; exact Or.inr ⟨es, he, hmem⟩
          | obj v => rw [hl] at he; exact Or.inr ⟨es, he, hmem⟩
        by_cases hseen : nid ∈ seen
        · rw [if_pos hseen] at hn
          rcases hsrc with hsrc | ⟨es1, hrec, hmem1⟩
          · exact Or.inl (hsrc ▸ hseen)
          · exact ih seen ns es1 hn hrec e hmem1
        · rw [if_neg hseen] at hn
          cases hrecn : buildNodesLoop rest (nid :: seen) with
          | error err => rw [hrecn] at hn; cases hn
          | ok ns1 =>
            rw [hrecn] at hn
            dsimp only at hn
            obtain rfl := Except.ok.inj hn
            rcases hsrc with hsrc | ⟨es1, hrec, hmem1⟩
            · exact Or.inr ⟨_, List.mem_cons_self _ _, hsrc.symm⟩
            · rcases ih (nid :: seen) ns1 es1 hrecn hrec e hmem1 with hs | ⟨n, hn1, hn2⟩
              · rcases List.mem_cons.1 hs with rfl | hs1
                · exact Or.inr ⟨_, List.mem_cons_self _ _, rfl⟩
                · exact Or.inl hs1
              · exact Or.inr ⟨n, List.mem_cons_of_mem _ hn1, hn2⟩

/-- Any entry's string link targets appear in the spec-side edge list,
regardless of whether an earlier entry already used the same identifier. -/
lemma mem_specEdges :
    ∀ (notes : List JVal) (fs : List (String × JVal)) (sid t : String),
      JVal.obj fs ∈ notes →
      nodeIdOf (entryKey (JVal.obj fs)) = some sid →
      JVal.str t ∈ declaredLinks fs →
      ({ source := sid, target := t } : GEdge) ∈ specEdges notes := by
  intro notes
  induction notes with
  | nil => intro fs sid t hmem _ _; cases hmem
  | cons e rest ih =>
    intro fs sid t hmem hid ht
    have heq : specEdges (e :: rest) =
        (match nodeIdOf (entryKey e) with
         | none => specEdges rest
         | some sid0 =>
           (match jGetD e "links" (.arr []) with
            | .arr targets => targets.filterMap (strEdge sid0)
            | _ => []) ++ specEdges rest) := rfl
    have hdl : declaredLinks fs =
        (match jGetD (JVal.obj fs) "links" (.arr []) with
         | .arr targets => targets
         | _ => []) := rfl
    rcases List.mem_cons.1 hmem with rfl | hmem1
    · rw [heq, hid]
      dsimp only
      refine List.mem_append.2 (Or.inl ?_)
      cases hl : jGetD (JVal.obj fs) "links" (.arr []) with
      | arr targets =>
        rw [hdl, hl] at ht
        dsimp only at ht
        dsimp only
        exact List.mem_filterMap.2 ⟨JVal.str t, ht, rfl⟩
      | str v => rw [hdl, hl] at ht; cases ht
      | num v => rw [hdl, hl] at ht; cases ht
      | bool v => rw [hdl, hl] at ht; cases ht
      | null => rw [hdl, hl] at ht; cases ht
      | obj v => rw [hdl, hl] at ht; cases ht
    · have hrec := ih fs sid t hmem1 hid ht
      rw [heq]
      cases hni : nodeIdOf (entryKey e) with
      | none => exact hrec
      | some sid0 =>
        dsimp only
        exact List.mem_append.2 (Or.inr hrec)

/-! ## Store data model (src/api/models.py, src/api/schemas.py)

Timestamps are values of the logical clock (`DateTime` columns filled by
`func.now()` / `datetime.utcnow()`).  `links.from_id` and `links.to_id` are
nullable foreign-key columns, hence `Option String`. -/

inductive NoteType where
  | idea
  | question
  | definition
deriving Repr, DecidableEq

inductive Domain where
  | physics
  | security
  | philosophy
  | personal
  | other
deriving Repr, DecidableEq

inductive RelationType where
  | supports
  | contradicts
  | extends
  | references
deriving Repr, DecidableEq

structure Note where
  id : String
  title : String
  content : String
  note_type : NoteType
  domain : Domain
  created_at : Nat
  updated_at : Option Nat
deriving Repr, DecidableEq

structure NoteVersion where
  id : String
  note_id : String
  old_content : String
  change_reason : String
  changed_at : Nat
deriving Repr, DecidableEq

structure Link where
  id : String
  from_id : Option String
  to_id : Option String
  relation : RelationType
  created_at : Nat
deriving Repr, DecidableEq

/-- The persisted database state, plus the logical clock.  Lists keep row
insertion order (new rows are appended, except versions which are
prepended — unobservable, since every read of versions sorts them and,
under `Store.WF`, a fresh version's timestamp strictly exceeds every
existing one). -/
structure Store where
  notes : List Note
  versions : List NoteVersion
  links : List Link
  clock : Nat
deriving Repr, DecidableEq

/-- Every persisted version timestamp lies strictly below the clock (true
of any state produced by the operations, which advance the clock past each
timestamp they write). -/
def Store.WF (s : Store) : Prop :=
  ∀ v ∈ s.versions, v.changed_at < s.clock

instance (s : Store) : Decidable s.WF :=
  inferInstanceAs (Decidable (∀ v ∈ s.versions, v.changed_at < s.clock))

/-- Errors as surfaced by the endpoints: each constructor stands for one
kind of the spec's taxonomy.  In the code, `notFound` is an
`HTTPException(404)`, `validationError` and `conflictError` are
`HTTPException(400)` raised at input-validation respectively
uniqueness-violation sites, and `internalError` is an HTTP 500 — either an
explicit `HTTPException(500)` or an unhandled Python exception caught by
the generic `@app.exception_handler(Exception)`. -/
inductive ApiError where
  | notFound (detail : String)
  | validationError (detail : String)
  | conflictError (detail : String)
  | internalError (detail : String)
deriving Repr, DecidableEq

/-- The body of a `PUT /api/notes/{note_id}` request
(schemas.py `NoteUpdate`); `change_reason` is a required string field. -/
structure NoteUpdate where
  title : Option String
  content : Option String
  note_type : Option NoteType
  domain : Option Domain
  change_reason : String
deriving Repr, DecidableEq

/-- Python's `str.strip()`: remove leading and trailing whitespace. -/
def pyStrip (s : String) : String :=
  ⟨((s.data.dropWhile Char.isWhitespace).reverse.dropWhile
      Char.isWhitespace).reverse⟩

/-! ## Store operations (src/api/main.py) -/

/-- `db.query(Note).filter(Note.id == note_id).first()`. -/
def findNote (s : Store) (note_id : String) : Option Note :=
  s.notes.find? (fun n => n.id == note_id)

/-- Versions of one note, in row order:
`db.query(NoteVersion).filter(NoteVersion.note_id == note_id)`. -/
def versionsOf (s : Store) (note_id : String) : List NoteVersion :=
  s.versions.filter (fun v => v.note_id == note_id)

/-- `ORDER BY changed_at DESC`: `v` may precede `w` iff `v` is at least as
recent. -/
def newerFirst (v w : NoteVersion) : Prop :=
  w.changed_at ≤ v.changed_at

instance : DecidableRel newerFirst :=
  fun v w => inferInstanceAs (Decidable (w.changed_at ≤ v.changed_at))

/-- `ORDER BY created_at DESC` on notes. -/
def newerNoteFirst (a b : Note) : Prop :=
  b.created_at ≤ a.created_at

instance : DecidableRel newerNoteFirst :=
  fun a b => inferInstanceAs (Decidable (b.created_at ≤ a.created_at))

/-- `GET /api/notes/{note_id}/versions` (main.py lines 277-291,
`get_note_versions`).  When the note exists, its versions are returned
ordered by `changed_at` descending.  When it does not, the code attempts
`raise HTTPException(status_code=status.HTP_404_NOT_FOUND, ...)`:
`HTP_404_NOT_FOUND` is not an attribute of `starlette.status`, so an
`AttributeError` escapes and the generic exception handler answers
HTTP 500 — an internal error, not a NotFound. -/
def get_note_versions (s : Store) (note_id : String) :
    Except ApiError (List NoteVersion) :=
  match findNote s note_id with
  | none =>
      .error (.internalError
        "AttributeError: module starlette.status has no attribute HTP_404_NOT_FOUND")
  | some _ =>
      .ok (List.insertionSort newerFirst (versionsOf s note_id))

/-- The content an update leaves behind: the stripped provided value, or
the previous content when the update does not touch the `content` field
(main.py lines 231-232). -/
def applyContent (c : String) (u : NoteUpdate) : String :=
  match u.content with
  | some c1 => pyStrip c1
  | none => c

/-- Apply the provided fields of a `NoteUpdate` to a note (main.py lines
229-238): provided `title`/`content` are stripped, `updated_at` is set to
now. -/
def applyUpdate (n : Note) (u : NoteUpdate) (now : Nat) : Note :=
  { n with
    title := match u.title with
             | some t => pyStrip t
             | none => n.title,
    content := applyContent n.content u,
    note_type := (u.note_type).getD n.note_type,
    domain := (u.domain).getD n.domain,
    updated_at := some now }

/-- The `NoteVersion` row written by `update_note` just before mutating:
`old_content` is the note's current (pre-mutation) content. -/
def mkVersion (n : Note) (u : NoteUpdate) (note_id : String) (now : Nat) :
    NoteVersion :=
  { id := "version-" ++ toString now,
    note_id := note_id,
    old_content := n.content,
    change_reason := pyStrip u.change_reason,
    changed_at := now }

/-- `PUT /api/notes/{note_id}` (main.py lines 198-248, `update_note`):
404 when the note is absent; 400 when `change_reason` is empty or
whitespace-only; otherwise one version row capturing the pre-mutation
content is written and the provided fields are applied, atomically.
On failure the store is unchanged. -/
def update_note (s : Store) (note_id : String) (u : NoteUpdate) :
    Except ApiError Note × Store :=
  match findNote s note_id with
  | none =>
      (.error (.notFound ("Note with ID " ++ note_id ++ " not found")), s)
  | some n =>
      if pyStrip u.change_reason = "" then
        (.error (.validationError "Change reason is required for updates"), s)
      else
        let n1 := applyUpdate n u s.clock
        (.ok n1,
         { notes := s.notes.map (fun m => if m.id == note_id then n1 else m),
           versions := mkVersion n u note_id s.clock :: s.versions,
           links := s.links,
           clock := s.clock + 1 })

/-- `DELETE /api/notes/{note_id}` (main.py lines 250-275, `delete_note`):
404 when absent; otherwise `db.delete(note)`.  The ORM cascade
`"all, delete-orphan"` on `Note.versions` deletes the note's version rows,
but `Note.outgoing_links` / `Note.incoming_links` declare no delete
cascade (and no `passive_deletes`), so SQLAlchemy nullifies
`links.from_id` / `links.to_id` referencing the note instead of deleting
the link rows — the orphaned rows remain. -/
def delete_note (s : Store) (note_id : String) :
    Except ApiError Unit × Store :=
  match findNote s note_id with
  | none =>
      (.error (.notFound ("Note with ID " ++ note_id ++ " not found")), s)
  | some _ =>
      (.ok (),
       { notes := s.notes.filter (fun n => n.id != note_id),
         versions := s.versions.filter (fun v => v.note_id != note_id),
         links := s.links.map (fun l =>
           { l with
             from_id := if l.from_id == some note_id then none else l.from_id,
             to_id := if l.to_id == some note_id then none else l.to_id }),
         clock := s.clock + 1 })

/-- `GET /api/notes/{note_id}` (main.py lines 156-196, `get_note`),
reduced to its outcome: the note when present, 404 otherwise. -/
def get_note (s : Store) (note_id : String) : Except ApiError Note :=
  match findNote s note_id with
  | none =>
      .error (.notFound ("Note with ID " ++ note_id ++ " not found"))
  | some n => .ok n

/-- `POST /api/links` (main.py lines 295-351, `create_link`): 404 when
either endpoint is absent (source checked first); 400 "Cannot link a note
to itself" when `from_id == to_id`; 400 "Link already exists between these
notes" when a link with the same ordered `(from_id, to_id)` pair exists
(the spec's ConflictError); otherwise a new link row is appended. -/
def create_link (s : Store) (from_id to_id : String) (rel : RelationType) :
    Except ApiError Link × Store :=
  match findNote s from_id with
  | none =>
      (.error (.notFound ("Source note with ID " ++ from_id ++ " not found")), s)
  | some _ =>
  match findNote s to_id with
  | none =>
      (.error (.notFound ("Target note with ID " ++ to_id ++ " not found")), s)
  | some _ =>
  if from_id = to_id then
    (.error (.validationError "Cannot link a note to itself"), s)
  else
    match s.links.find? (fun l =>
        l.from_id == some from_id && l.to_id == some to_id) with
    | some _ =>
        (.error (.conflictError "Link already exists between these notes"), s)
    | none =>
        let link : Link :=
          { id := "link-" ++ toString s.clock,
            from_id := some from_id,
            to_id := some to_id,
            relation := rel,
            created_at := s.clock }
        (.ok link,
         { notes := s.notes, versions := s.versions,
           links := s.links ++ [link], clock := s.clock + 1 })

/-- `GET /api/notes` (main.py lines 137-154, `get_all_notes`): optional
domain / note-type filters, `ORDER BY created_at DESC`, then
`OFFSET skip LIMIT limit`.  The handler performs no validation of `skip`
or `limit`; negative values are passed to the storage layer unchecked
(the storage module `database.py` is not part of the sources; SQLite, the
usual backend here, treats a negative `OFFSET` as `0` and a negative
`LIMIT` as "no limit" — in no engine does a negative value yield an HTTP
400 validation error). -/
def queryNotes (s : Store) (domain : Option Domain)
    (note_type : Option NoteType) : List Note :=
  let q := s.notes
  let q := match domain with
           | some d => q.filter (fun n => n.domain == d)
           | none => q
  match note_type with
  | some t => q.filter (fun n => n.note_type == t)
  | none => q

def get_all_notes (s : Store) (domain : Option Domain)
    (note_type : Option NoteType) (skip limit : Int) : List Note :=
  let sorted := List.insertionSort newerNoteFirst (queryNotes s domain note_type)
  let paged := sorted.drop skip.toNat
  if limit < 0 then paged else paged.take limit.toNat

/-- A `GraphNode` of the strict Store-backed graph (schemas.py). -/
structure StoreGraphNode where
  id : String
  title : String
  note_type : NoteType
  domain : Domain
deriving Repr, DecidableEq

/-- A `GraphEdge` of the strict Store-backed graph (schemas.py). -/
structure StoreGraphEdge where
  id : String
  source : String
  target : String
  relation : RelationType
deriving Repr, DecidableEq

structure StoreGraph where
  nodes : List StoreGraphNode
  edges : List StoreGraphEdge
deriving Repr, DecidableEq

/-- SQL `col IN (list)` on a nullable column: `NULL IN (...)` is not true. -/
def optMem (v : Option String) (ids : List String) : Bool :=
  match v with
  | some x => ids.contains x
  | none => false

def toStoreGraphNode (n : Note) : StoreGraphNode :=
  { id := n.id, title := n.title, note_type := n.note_type, domain := n.domain }

/-- Only evaluated on links whose endpoints passed the `IN` filter, hence
are non-null. -/
def toStoreGraphEdge (l : Link) : StoreGraphEdge :=
  { id := l.id, source := l.from_id.getD "", target := l.to_id.getD "",
    relation := l.relation }

/-- `GET /api/graph` (main.py lines 407-447, `get_graph_data`): notes
optionally filtered by domain become the nodes; the edges are exactly the
links with `from_id IN note_ids AND to_id IN note_ids`, where `note_ids`
are the ids of the filtered notes. -/
def get_graph_data (s : Store) (domain : Option Domain) : StoreGraph :=
  let notes := queryNotes s domain none
  let note_ids := notes.map (fun n => n.id)
  let ls := s.links.filter (fun l =>
    optMem l.from_id note_ids && optMem l.to_id note_ids)
  { nodes := notes.map toStoreGraphNode,
    edges := ls.map toStoreGraphEdge }

instance {ε α : Type} [DecidableEq ε] [DecidableEq α] :
    DecidableEq (Except ε α) := fun x y =>
  match x, y with
  | .ok a, .ok b =>
      if h : a = b then .isTrue (by rw [h]) else .isFalse (by simp [h])
  | .error e, .error f =>
      if h : e = f then .isTrue (by rw [h]) else .isFalse (by simp [h])
  | .ok _, .error _ => .isFalse (by simp)
  | .error _, .ok _ => .isFalse (by simp)

/-! ## Concrete stores used as witnesses and counterexamples -/

def noteA : Note :=
  { id := "a", title := "A", content := "alpha", note_type := .idea,
    domain := .physics, created_at := 0, updated_at := none }

def noteB : Note :=
  { id := "b", title := "B", content := "beta", note_type := .question,
    domain := .security, created_at := 1, updated_at := none }

def verA0 : NoteVersion :=
  { id := "version-0", note_id := "a", old_content := "",
    change_reason := "Initial creation", changed_at := 0 }

def verA1 : NoteVersion :=
  { id := "version-1", note_id := "a", old_content := "alpha zero",
    change_reason := "rewrite", changed_at := 1 }

def linkAB : Link :=
  { id := "link-2", from_id := some "a", to_id := some "b",
    relation := .supports, created_at := 2 }

/-- A store with notes `a`, `b`, two versions of `a` (most recent row
first) and one link `a → b`. -/
def baseStore : Store :=
  { notes := [noteA, noteB], versions := [verA1, verA0],
    links := [linkAB], clock := 3 }

/-- What remains of `linkAB` after `delete_note "a"`: the row survives
with its source nullified. -/
def orphanLinkAB : Link :=
  { id := "link-2", from_id := none, to_id := some "b",
    relation := .supports, created_at := 2 }

/-- `baseStore` after `delete_note "a"`. -/
def baseStoreDelA : Store :=
  { notes := [noteB], versions := [], links := [orphanLinkAB], clock := 4 }

/-! ## C4 — cascade on note deletion -/

/-- C4: the claim says `delete_note` removes the note together with all of
its versions and all links where it is source or target.  On the code,
deleting `"a"` from `baseStore` does remove the note and its versions, a
subsequent `get_note "a"` is NotFound, and deleting an absent id is
NotFound — but the link `a → b` is not deleted: with no delete cascade on
the `Note.outgoing_links` / `Note.incoming_links` relationships,
SQLAlchemy nullifies its `from_id` and the orphaned row remains, even
though the code's own comment claims "cascade will handle versions and
links" and the columns declare `ondelete="CASCADE"`. -/
theorem C4_delete_note_cascade_bug :
    delete_note baseStore "a" = (.ok (), baseStoreDelA) ∧
    get_note baseStoreDelA "a" =
      .error (.notFound "Note with ID a not found") ∧
    baseStoreDelA.notes = [noteB] ∧
    baseStoreDelA.versions = [] ∧
    baseStoreDelA.links = [orphanLinkAB] ∧
    orphanLinkAB.id = linkAB.id ∧
    delete_note baseStore "ghost" =
      (.error (.notFound "Note with ID ghost not found"), baseStore) := by
  refine ⟨by decide, by decide, rfl, rfl, rfl, rfl, by decide⟩

/-! ## C7 — `list_versions` -/

/-- C7: for an existing note, `get_note_versions` does return the versions
newest first; but for an absent note the claim fails: the handler's
not-found branch misspells the status constant (`HTP_404_NOT_FOUND`,
main.py line 283), so an `AttributeError` escapes and the request ends as
an HTTP 500 internal error, not the claimed NotFound. -/
theorem C7_list_versions_notfound_bug :
    get_note_versions baseStore "a" = .ok [verA1, verA0] ∧
    get_note_versions baseStore "ghost" =
      .error (.internalError
        "AttributeError: module starlette.status has no attribute HTP_404_NOT_FOUND") ∧
    (∀ d, get_note_versions baseStore "ghost" ≠ .error (.notFound d)) := by
  refine ⟨by decide, by decide, ?_⟩
  intro d h
  rw [show get_note_versions baseStore "ghost" =
      .error (.internalError
        "AttributeError: module starlette.status has no attribute HTP_404_NOT_FOUND")
    from by decide] at h
  exact absurd (Except.error.inj h) (by simp)

/-! ## C8 — `list_notes` ordering and pagination -/

instance : IsTotal Note newerNoteFirst :=
  ⟨fun a b => (Nat.le_total a.created_at b.created_at).symm⟩

instance : IsTrans Note newerNoteFirst :=
  ⟨fun _ _ _ hab hbc => le_trans hbc hab⟩

/-- C8 counterexample: the claim says `list_notes` fails with
ValidationError when `skip` or `limit` is negative.  The handler
(`get_all_notes`, main.py lines 137-154) performs no such validation — its
outcome has no failure case at all — and with `skip = -1`, `limit = -1`
the call simply returns every note, newest first. -/
theorem C8_negative_pagination_not_validated :
    get_all_notes baseStore none none (-1) (-1) = [noteB, noteA] := by
  decide

/-- C8 as amended: `list_notes` returns the filtered notes in some order
sorted by `created_at` descending, with `skip`/`limit` applied as
drop/take pagination; negative values are not rejected (see the
counterexample — no ValidationError exists in this code path). -/
theorem C8_list_notes_pagination (s : Store) (domain : Option Domain)
    (note_type : Option NoteType) (skip limit : Nat) :
    ∃ all : List Note,
      all.Perm (queryNotes s domain note_type) ∧
      all.Sorted newerNoteFirst ∧
      get_all_notes s domain note_type skip limit = (all.drop skip).take limit := by
  refine ⟨List.insertionSort newerNoteFirst (queryNotes s domain note_type),
    List.perm_insertionSort _ _, List.sorted_insertionSort _ _, ?_⟩
  simp [get_all_notes]

/-! ## C6 — `update_note` input validation -/

/-- C6: `update_note` on an absent id fails with NotFound; on an existing
note with an empty or whitespace-only `change_reason` (i.e. one that trims
to the empty string) it fails with ValidationError and the store — hence
the note, all its fields, and its version history — is unchanged. -/
theorem C6_update_requires_change_reason (s : Store) (note_id : String)
    (u : NoteUpdate) :
    (findNote s note_id = none →
       update_note s note_id u =
         (.error (.notFound ("Note with ID " ++ note_id ++ " not found")), s)) ∧
    ((∃ n, findNote s note_id = some n) → pyStrip u.change_reason = "" →
       update_note s note_id u =
         (.error (.validationError "Change reason is required for updates"), s)) := by
  constructor
  · intro h
    simp [update_note, h]
  · rintro ⟨n, hn⟩ hcr
    simp [update_note, hn, hcr]

/-- The C6 update body: fields provided, but a whitespace-only reason. -/
def wsUpdate : NoteUpdate :=
  { title := some "New title", content := some "new content",
    note_type := none, domain := none, change_reason := "   " }

theorem C6_witness :
    update_note baseStore "ghost" wsUpdate =
      (.error (.notFound "Note with ID ghost not found"), baseStore) ∧
    update_note baseStore "a" wsUpdate =
      (.error (.validationError "Change reason is required for updates"),
       baseStore) :=
  ⟨(C6_update_requires_change_reason baseStore "ghost" wsUpdate).1 (by decide),
   (C6_update_requires_change_reason baseStore "a" wsUpdate).2
     ⟨noteA, by decide⟩ (by decide)⟩

/-! ## C5 — `create_link` contract -/

/-- C5: `create_link` fails with NotFound when either endpoint is absent,
with ValidationError when both endpoints exist and `from_id = to_id`, with
ConflictError when both exist, differ, and a link with the identical
ordered pair is already stored; otherwise it stores and returns a new link
with exactly the requested endpoints and relation.  Failures leave the
store unchanged. -/
theorem C5_create_link_contract (s : Store) (f t : String)
    (rel : RelationType) :
    ((findNote s f = none ∨ findNote s t = none) →
       ∃ d, create_link s f t rel = (.error (.notFound d), s)) ∧
    ((∃ nf, findNote s f = some nf) → (∃ nt, findNote s t = some nt) →
       f = t →
       create_link s f t rel =
         (.error (.validationError "Cannot link a note to itself"), s)) ∧
    ((∃ nf, findNote s f = some nf) → (∃ nt, findNote s t = some nt) →
       f ≠ t → (∃ l ∈ s.links, l.from_id = some f ∧ l.to_id = some t) →
       create_link s f t rel =
         (.error (.conflictError "Link already exists between these notes"), s)) ∧
    ((∃ nf, findNote s f = some nf) → (∃ nt, findNote s t = some nt) →
       f ≠ t → (∀ l ∈ s.links, ¬(l.from_id = some f ∧ l.to_id = some t)) →
       ∃ link,
         create_link s f t rel =
           (.ok link,
            { notes := s.notes, versions := s.versions,
              links := s.links ++ [link], clock := s.clock + 1 }) ∧
         link.from_id = some f ∧ link.to_id = some t ∧
         link.relation = rel) := by
  refine ⟨?_, ?_, ?_, ?_⟩
  · intro h
    rcases hf : findNote s f with _ | nf
    · exact ⟨"Source note with ID " ++ f ++ " not found",
        by simp [create_link, hf]⟩
    · rcases ht : findNote s t with _ | nt
      · exact ⟨"Target note with ID " ++ t ++ " not found",
          by simp [create_link, hf, ht]⟩
      · rcases h with h | h
        · rw [hf] at h; exact absurd h (by simp)
        · rw [ht] at h; exact absurd h (by simp)
  · rintro ⟨nf, hf⟩ ⟨nt, ht⟩ hft
    simp [create_link, hf, ht, hft]
  · rintro ⟨nf, hf⟩ ⟨nt, ht⟩ hft ⟨l, hl, h1, h2⟩
    have hdup : (s.links.find? (fun l =>
        l.from_id == some f && l.to_id == some t)).isSome := by
      rw [List.find?_isSome]
      exact ⟨l, hl, by simp [h1, h2]⟩
    rcases hfp : s.links.find? (fun l =>
        l.from_id == some f && l.to_id == some t) with _ | l0
    · rw [hfp] at hdup; simp at hdup
    · simp [create_link, hf, ht, hft, hfp]
  · rintro ⟨nf, hf⟩ ⟨nt, ht⟩ hft hnone
    have hfp : s.links.find? (fun l =>
        l.from_id == some f && l.to_id == some t) = none := by
      rw [List.find?_eq_none]
      intro l hl
      have := hnone l hl
      simp only [Bool.and_eq_true, beq_iff_eq]
      tauto
    exact ⟨{ id := "link-" ++ toString s.clock, from_id := some f,
             to_id := some t, relation := rel, created_at := s.clock },
      by simp [create_link, hf, ht, hft, hfp], rfl, rfl, rfl⟩

theorem C5_witness :
    (∃ d, create_link baseStore "a" "ghost" .supports =
       (.error (.notFound d), baseStore)) ∧
    create_link baseStore "a" "a" .supports =
      (.error (.validationError "Cannot link a note to itself"), baseStore) ∧
    create_link baseStore "a" "b" .extends =
      (.error (.conflictError "Link already exists between these notes"),
       baseStore) ∧
    (∃ link,
       create_link baseStore "b" "a" .extends =
         (.ok link,
          { notes := baseStore.notes, versions := baseStore.versions,
            links := baseStore.links ++ [link],
            clock := baseStore.clock + 1 }) ∧
       link.from_id = some "b" ∧ link.to_id = some "a" ∧
       link.relation = .extends) :=
  ⟨(C5_create_link_contract baseStore "a" "ghost" .supports).1
     (Or.inr (by decide)),
   (C5_create_link_contract baseStore "a" "a" .supports).2.1
     ⟨noteA, by decide⟩ ⟨noteA, by decide⟩ rfl,
   (C5_create_link_contract baseStore "a" "b" .extends).2.2.1
     ⟨noteA, by decide⟩ ⟨noteB, by decide⟩ (by decide)
     ⟨linkAB, by decide, by decide, by decide⟩,
   (C5_create_link_contract baseStore "b" "a" .extends).2.2.2
     ⟨noteB, by decide⟩ ⟨noteA, by decide⟩ (by decide)
     (by decide)⟩

/-! ## C2 — permissive materializer on well-formed collections -/

/-- The spec's own worked example:
`[{id:"a",title:"A",links:["b"]}, {id:"a",title:"A2",links:[]}]`. -/
def dupInput : List JVal :=
  [.obj [("id", .str "a"), ("title", .str "A"), ("links", .arr [.str "b"])],
   .obj [("id", .str "a"), ("title", .str "A2"), ("links", .arr [])]]

/-- C2: on collections of note objects the permissive materializer agrees
exactly with the spec's step-1/step-2 description (dedup by id keeping the
first occurrence, `title` defaulting to the identifier, `domain` to
`"default"`, one edge per declared string link with no target-existence
check); the produced node identifiers are always duplicate-free; and on
the spec's worked example it yields exactly one node
(id `"a"`, title `"A"`) and one edge `a → b` although `"b"` is no node. -/
theorem C2_permissive_materializer :
    (∀ notes : List JVal, (∀ e ∈ notes, e.isObj = true) →
       buildGraphFromNotes notes =
         .ok { nodes := specNodes notes [], edges := specEdges notes }) ∧
    (∀ (notes : List JVal) (g : Graph), buildGraphFromNotes notes = .ok g →
       (g.nodes.map GNode.id).Nodup) ∧
    buildGraphFromNotes dupInput =
      .ok { nodes := [{ id := "a", title := .str "A", domain := .str "default" }],
            edges := [{ source := "a", target := "b" }] } := by
  refine ⟨fun notes h => buildGraph_eq_spec notes h, ?_, rfl⟩
  intro notes g hg
  unfold buildGraphFromNotes at hg
  cases hn : buildNodesLoop notes [] with
  | error err => rw [hn] at hg; cases hg
  | ok ns =>
    rw [hn] at hg
    dsimp only at hg
    cases he : buildEdgesLoop notes with
    | error err => rw [he] at hg; cases hg
    | ok es =>
      rw [he] at hg
      dsimp only at hg
      obtain rfl := Except.ok.inj hg
      exact (buildNodesLoop_ids_nodup notes [] ns hn).1

theorem C2_witness :
    buildGraphFromNotes dupInput =
      .ok { nodes := specNodes dupInput [], edges := specEdges dupInput } ∧
    (({ nodes := [{ id := "a", title := .str "A", domain := .str "default" }],
        edges := [{ source := "a", target := "b" }] } : Graph).nodes.map
          GNode.id).Nodup :=
  ⟨C2_permissive_materializer.1 dupInput (by simp [dupInput, JVal.isObj]),
   C2_permissive_materializer.2.1 dupInput _ rfl⟩

/-! ## C9 — what the materializer tolerates -/

/-- C9 counterexample: the claim says the permissive transformation never
raises, even for entries that are not note objects.  But the loops call
`.get` on every entry, so the singleton collection `[42]` raises
`AttributeError` (failing the whole request) instead of being skipped. -/
theorem C9_nonobject_entry_raises :
    buildGraphFromNotes [JVal.num 42] = .error .attributeError := rfl

/-- Object entries exercising every malformed-field shape the code skips:
a missing `id`, a non-string `id`, an empty-string `id`, a non-list
`links` value, and non-string link targets. -/
def malformedFields : List JVal :=
  [.obj [("title", .str "no id")],
   .obj [("id", .num 7)],
   .obj [("id", .str "")],
   .obj [("id", .str "x"), ("links", .bool true)],
   .obj [("id", .str "y"), ("links", .arr [.str "z", .num 3, .null])]]

/-- C9 as amended: the materializer never raises and returns a
`{nodes, edges}` result provided every entry is an object; malformed
fields inside object entries are skipped, not fatal (second conjunct:
the bad-field entries above still yield a graph — `x` and `y` survive,
only the string target `"z"` becomes an edge).  Entries that are not
objects raise (see the counterexample). -/
theorem C9_object_entries_never_raise :
    (∀ notes : List JVal, (∀ e ∈ notes, e.isObj = true) →
       ∃ g : Graph, buildGraphFromNotes notes = .ok g) ∧
    buildGraphFromNotes malformedFields =
      .ok { nodes := [{ id := "x", title := .str "x", domain := .str "default" },
                      { id := "y", title := .str "y", domain := .str "default" }],
            edges := [{ source := "y", target := "z" }] } :=
  ⟨fun notes h => ⟨_, buildGraph_eq_spec notes h⟩, rfl⟩

theorem C9_witness :
    ∃ g : Graph, buildGraphFromNotes malformedFields = .ok g :=
  C9_object_entries_never_raise.1 malformedFields (by simp [malformedFields, JVal.isObj])

/-! ## C10 — edge sources and repeated identifiers -/

/-- C10: in permissive mode every emitted edge's source is the id of some
emitted node, and the declared links of every occurrence of a repeated
identifier — not only its first occurrence — contribute edges (an entry's
string link target `t` always yields the edge `sid → t`, with no
first-occurrence restriction on `sid`). -/
theorem C10_every_occurrence_contributes :
    (∀ (notes : List JVal) (g : Graph), buildGraphFromNotes notes = .ok g →
       ∀ e ∈ g.edges, ∃ n ∈ g.nodes, n.id = e.source) ∧
    (∀ (notes : List JVal) (g : Graph) (fs : List (String × JVal))
       (sid t : String),
       buildGraphFromNotes notes = .ok g →
       JVal.obj fs ∈ notes →
       nodeIdOf (entryKey (JVal.obj fs)) = some sid →
       JVal.str t ∈ declaredLinks fs →
       ({ source := sid, target := t } : GEdge) ∈ g.edges) := by
  constructor
  · intro notes g hg e he
    unfold buildGraphFromNotes at hg
    cases hn : buildNodesLoop notes [] with
    | error err => rw [hn] at hg; cases hg
    | ok ns =>
      rw [hn] at hg
      dsimp only at hg
      cases hed : buildEdgesLoop notes with
      | error err => rw [hed] at hg; cases hg
      | ok es =>
        rw [hed] at hg
        dsimp only at hg
        obtain rfl := Except.ok.inj hg
        rcases buildEdges_source_mem notes [] ns es hn hed e he with hs | hs
        · cases hs
        · exact hs
  · intro notes g fs sid t hg hmem hid ht
    unfold buildGraphFromNotes at hg
    cases hn : buildNodesLoop notes [] with
    | error err => rw [hn] at hg; cases hg
    | ok ns =>
      rw [hn] at hg
      dsimp only at hg
      cases hed : buildEdgesLoop notes with
      | error err => rw [hed] at hg; cases hg
      | ok es =>
        rw [hed] at hg
        dsimp only at hg
        obtain rfl := Except.ok.inj hg
        have hobj := allObj_of_buildNodesLoop_ok notes [] ns hn
        have := buildEdgesLoop_eq_specEdges notes hobj
        rw [hed] at this
        obtain rfl := Except.ok.inj this
        exact mem_specEdges notes fs sid t hmem hid ht

/-- Two occurrences of id `"a"`, each declaring a different link. -/
def dupA1 : List (String × JVal) := [("id", .str "a"), ("links", .arr [.str "b"])]

def dupA2 : List (String × JVal) := [("id", .str "a"), ("links", .arr [.str "c"])]

def dupLinksInput : List JVal := [.obj dupA1, .obj dupA2]

theorem C10_witness :
    (∃ n ∈ ({ nodes := [{ id := "a", title := .str "A", domain := .str "default" }],
              edges := [{ source := "a", target := "b" }] } : Graph).nodes,
       n.id = ({ source := "a", target := "b" } : GEdge).source) ∧
    ({ source := "a", target := "c" } : GEdge) ∈
      (({ nodes := [{ id := "a", title := .str "a", domain := .str "default" }],
          edges := [{ source := "a", target := "b" },
                    { source := "a", target := "c" }] } : Graph)).edges := by
  constructor
  · refine C10_every_occurrence_contributes.1 dupInput _ rfl
      { source := "a", target := "b" } (List.mem_cons_self _ _)
  · refine C10_every_occurrence_contributes.2 dupLinksInput _ dupA2 "a" "c"
      rfl (List.mem_cons_of_mem _ (List.mem_cons_self _ _)) (by decide) ?_
    rw [show declaredLinks dupA2 = [JVal.str "c"] from rfl]
    exact List.mem_cons_self _ _

/-! ## C3 — strict Store-backed graph -/

lemma optMem_true {v : Option String} {ids : List String}
    (h : optMem v ids = true) : ∃ x, v = some x ∧ x ∈ ids := by
  cases v with
  | none => simp [optMem] at h
  | some x => exact ⟨x, rfl, by simpa [optMem] using h⟩

lemma optMem_of_mem {x : String} {ids : List String} (h : x ∈ ids) :
    optMem (some x) ids = true := by
  simpa [optMem] using h

/-- An id has a node in the strict graph iff some note of the filtered
query carries it. -/
lemma graph_nodes_id (s : Store) (domain : Option Domain) (x : String) :
    (∃ n ∈ (get_graph_data s domain).nodes, n.id = x) ↔
      x ∈ (queryNotes s domain none).map Note.id := by
  simp [get_graph_data, toStoreGraphNode]

/-- C3: the strict Store-backed graph endpoint emits exactly the links
both of whose endpoints are ids of notes in the (domain-filtered) node
set: every returned edge has its source and target among the returned
nodes, every stored link whose two endpoints are both among the returned
nodes is returned, and on the concrete store (note `a` in physics, note
`b` in security, link `a → b`) filtering to physics keeps node `a` but
excludes the cross-domain edge. -/
theorem C3_strict_graph_edge_filter (s : Store) (domain : Option Domain) :
    (∀ e ∈ (get_graph_data s domain).edges,
       (∃ n ∈ (get_graph_data s domain).nodes, n.id = e.source) ∧
       (∃ n ∈ (get_graph_data s domain).nodes, n.id = e.target)) ∧
    (∀ l ∈ s.links, ∀ f t : String, l.from_id = some f → l.to_id = some t →
       (∃ n ∈ (get_graph_data s domain).nodes, n.id = f) →
       (∃ n ∈ (get_graph_data s domain).nodes, n.id = t) →
       toStoreGraphEdge l ∈ (get_graph_data s domain).edges) ∧
    get_graph_data baseStore (some .physics) =
      { nodes := [toStoreGraphNode noteA], edges := [] } := by
  refine ⟨?_, ?_, by decide⟩
  · intro e he
    simp only [get_graph_data] at he
    obtain ⟨l, hl, rfl⟩ := List.mem_map.1 he
    obtain ⟨hmem, hp⟩ := List.mem_filter.1 hl
    rw [Bool.and_eq_true] at hp
    obtain ⟨hf, ht⟩ := hp
    obtain ⟨f, hfe, hfm⟩ := optMem_true hf
    obtain ⟨t, hte, htm⟩ := optMem_true ht
    constructor
    · rw [graph_nodes_id]
      simpa [toStoreGraphEdge, hfe] using hfm
    · rw [graph_nodes_id]
      simpa [toStoreGraphEdge, hte] using htm
  · intro l hl f t hf ht hfn htn
    rw [graph_nodes_id] at hfn htn
    simp only [get_graph_data]
    refine List.mem_map.2 ⟨l, List.mem_filter.2 ⟨hl, ?_⟩, rfl⟩
    rw [Bool.and_eq_true, hf, ht]
    exact ⟨optMem_of_mem hfn, optMem_of_mem htn⟩

theorem C3_witness :
    ((∃ n ∈ (get_graph_data baseStore none).nodes,
        n.id = (toStoreGraphEdge linkAB).source) ∧
     (∃ n ∈ (get_graph_data baseStore none).nodes,
        n.id = (toStoreGraphEdge linkAB).target)) ∧
    toStoreGraphEdge linkAB ∈ (get_graph_data baseStore none).edges :=
  ⟨(C3_strict_graph_edge_filter baseStore none).1 (toStoreGraphEdge linkAB)
     (by decide),
   (C3_strict_graph_edge_filter baseStore none).2.1 linkAB (by decide)
     "a" "b" rfl rfl
     ⟨toStoreGraphNode noteA, by decide, rfl⟩
     ⟨toStoreGraphNode noteB, by decide, rfl⟩⟩

/-! ## C1 — exactly one pre-update snapshot per update, newest first -/

/-- A sequence of `update_note` calls on one note, each required to
succeed (`some` of the final store; `none` when any call fails). -/
def update_note_seq : Store → String → List NoteUpdate → Option Store
  | s, _, [] => some s
  | s, note_id, u :: us =>
    match update_note s note_id u with
    | (.ok _, s1) => update_note_seq s1 note_id us
    | (.error _, _) => none

/-- The content values a note holds immediately prior to each update of a
sequence, in application order: starting from content `c`, the `k`-th
element is the content just before the `k`-th update. -/
def preContents : String → List NoteUpdate → List String
  | _, [] => []
  | c, u :: us => c :: preContents (applyContent c u) us

/-- Replacing the found note by an update with the same id is what a
subsequent lookup sees. -/
lemma find?_map_replace (note_id : String) (n1 : Note) (h1 : n1.id = note_id) :
    ∀ (l : List Note) (n : Note),
      l.find? (fun m => m.id == note_id) = some n →
      (l.map (fun m => if m.id == note_id then n1 else m)).find?
        (fun m => m.id == note_id) = some n1 := by
  intro l
  induction l with
  | nil => intro n h; cases h
  | cons a l ih =>
    intro n h
    by_cases ha : a.id = note_id
    · simp only [List.map_cons,
        if_pos (show (a.id == note_id) = true from beq_iff_eq.2 ha)]
      exact List.find?_cons_of_pos (p := fun m : Note => m.id == note_id) _
        (show (n1.id == note_id) = true from beq_iff_eq.2 h1)
    · have hb : ¬ (a.id == note_id) = true := by simp [ha]
      rw [List.find?_cons_of_neg (p := fun m : Note => m.id == note_id) _ hb] at h
      simp only [List.map_cons, if_neg hb]
      rw [List.find?_cons_of_neg (p := fun m : Note => m.id == note_id) _ hb]
      exact ih n h

/-- Sorting newest-first leaves an element at the front when it is at
least as recent as everything behind it. -/
lemma insertionSort_cons_of_max (v : NoteVersion) (l : List NoteVersion)
    (h : ∀ w ∈ l, w.changed_at ≤ v.changed_at) :
    List.insertionSort newerFirst (v :: l) =
      v :: List.insertionSort newerFirst l := by
  rw [show List.insertionSort newerFirst (v :: l) =
      (List.insertionSort newerFirst l).orderedInsert newerFirst v from rfl]
  cases hs : List.insertionSort newerFirst l with
  | nil => rfl
  | cons b tl =>
    have hb : b ∈ l := (List.perm_insertionSort newerFirst l).subset
      (by rw [hs]; exact List.mem_cons_self b tl)
    exact List.orderedInsert_of_le newerFirst tl (h b hb)

/-- C1: starting from any well-formed store holding the note, a sequence
of `N` successful updates adds exactly `N` version records for it — and
no others — where the `k`-th added record snapshots the content held
immediately before the `k`-th update; `list_versions` afterwards returns
exactly the new records, newest first, followed by the previously stored
ones in their sorted order. -/
theorem C1_update_version_history :
    ∀ (us : List NoteUpdate) (s : Store) (note_id : String) (n : Note)
      (s1 : Store),
      s.WF →
      findNote s note_id = some n →
      update_note_seq s note_id us = some s1 →
      ∃ fresh : List NoteVersion,
        versionsOf s1 note_id = fresh ++ versionsOf s note_id ∧
        fresh.length = us.length ∧
        fresh.map NoteVersion.old_content = (preContents n.content us).reverse ∧
        get_note_versions s1 note_id =
          .ok (fresh ++ List.insertionSort newerFirst (versionsOf s note_id)) := by
  intro us
  induction us with
  | nil =>
    intro s note_id n s1 hWF hfind hrun
    obtain rfl : s = s1 := by simpa [update_note_seq] using hrun
    refine ⟨[], by simp, rfl, rfl, ?_⟩
    simp [get_note_versions, hfind]
  | cons u us ih =>
    intro s note_id n s1 hWF hfind hrun
    simp only [update_note_seq, update_note, hfind] at hrun
    by_cases hcr : pyStrip u.change_reason = ""
    · rw [if_pos hcr] at hrun
      dsimp only at hrun
      exact Option.noConfusion hrun
    · rw [if_neg hcr] at hrun
      dsimp only at hrun
      -- the store after this single successful update
      have hfind0 : s.notes.find? (fun m => m.id == note_id) = some n := hfind
      have hid : n.id = note_id := beq_iff_eq.1 (List.find?_some (p := fun m : Note => m.id == note_id) hfind0)
      have hid1 : (applyUpdate n u s.clock).id = note_id := by
        simpa [applyUpdate] using hid
      have hWF1 :
          Store.WF
            { notes := s.notes.map
                (fun m => if m.id == note_id then applyUpdate n u s.clock else m),
              versions := mkVersion n u note_id s.clock :: s.versions,
              links := s.links, clock := s.clock + 1 } := by
        intro v hv
        rcases List.mem_cons.1 hv with rfl | hv1
        · exact Nat.lt_succ_self _
        · exact Nat.lt_succ_of_lt (hWF v hv1)
      have hfind1 :
          findNote
            { notes := s.notes.map
                (fun m => if m.id == note_id then applyUpdate n u s.clock else m),
              versions := mkVersion n u note_id s.clock :: s.versions,
              links := s.links, clock := s.clock + 1 } note_id =
            some (applyUpdate n u s.clock) :=
        find?_map_replace note_id _ hid1 s.notes n hfind
      obtain ⟨fresh1, hv1, hl1, hc1, hg1⟩ := ih _ note_id _ s1 hWF1 hfind1 hrun
      have hver :
          versionsOf
            { notes := s.notes.map
                (fun m => if m.id == note_id then applyUpdate n u s.clock else m),
              versions := mkVersion n u note_id s.clock :: s.versions,
              links := s.links, clock := s.clock + 1 } note_id =
            mkVersion n u note_id s.clock :: versionsOf s note_id := by
        simp [versionsOf, mkVersion]
      have hmax : ∀ w ∈ versionsOf s note_id,
          w.changed_at ≤ (mkVersion n u note_id s.clock).changed_at :=
        fun w hw => Nat.le_of_lt (hWF w (List.mem_of_mem_filter hw))
      refine ⟨fresh1 ++ [mkVersion n u note_id s.clock], ?_, ?_, ?_, ?_⟩
      · rw [hv1, hver]
        simp
      · simp [hl1]
      · rw [List.map_append, hc1]
        have : (applyUpdate n u s.clock).content = applyContent n.content u := rfl
        simp [preContents, this, mkVersion]
      · rw [hg1, hver, insertionSort_cons_of_max _ _ hmax]
        simp

/-- The two updates used in the C1 witness: the first rewrites the
content (with surrounding whitespace to strip), the second changes other
fields and the content again. -/
def upd1 : NoteUpdate :=
  { title := none, content := some " alpha one ", note_type := none,
    domain := none, change_reason := "first pass" }

def upd2 : NoteUpdate :=
  { title := some "A2", content := some "alpha two", note_type := some .question,
    domain := none, change_reason := "second pass" }

/-- `baseStore` after successfully updating note `a` twice. -/
def seqStore : Store :=
  (update_note_seq baseStore "a" [upd1, upd2]).getD baseStore

theorem C1_witness :
    baseStore.WF ∧
    findNote baseStore "a" = some noteA ∧
    update_note_seq baseStore "a" [upd1, upd2] = some seqStore ∧
    ∃ fresh : List NoteVersion,
      versionsOf seqStore "a" = fresh ++ versionsOf baseStore "a" ∧
      fresh.length = ([upd1, upd2] : List NoteUpdate).length ∧
      fresh.map NoteVersion.old_content =
        (preContents noteA.content [upd1, upd2]).reverse ∧
      get_note_versions seqStore "a" =
        .ok (fresh ++ List.insertionSort newerFirst (versionsOf baseStore "a")) :=
  ⟨by decide, by decide, by decide,
   C1_update_version_history [upd1, upd2] baseStore "a" noteA seqStore
     (by decide) (by decide) (by decide)⟩

end Noesis
